import Mathlib

/-!
# GrowHFT — formal model of the trading engine's money management and voting

Shallow embedding of `server/python/money_management.py`,
`server/python/strategies.py` (`MultiStrategyEngine.get_combined_signal`) and
`server/python/engine.py` (`load_active_strategies`, `process_symbol`).

Modelling conventions:
* Python floats are modelled as rationals (`ℚ`); integers as `ℤ`/`ℕ`.
* Python dicts keyed by symbol become association lists with dict semantics
  (lookup = first occurrence, assignment replaces in place, `del` removes).
* `datetime` fields (`entry_time`, `exit_time`, `last_reset_date`) are elided:
  no claim depends on them, and the claims about `can_trade` are restricted to
  states whose calendar date has not advanced, in which case
  `reset_daily_stats` is the identity.
* Reason strings produced with f-string interpolation are modelled by an
  enumeration of the reason kinds (`CTReason`); plain literal reason strings
  (`"STOP_LOSS"`, …) are kept as strings.
-/

namespace GrowHFT

/-- Dict lookup: value at the first occurrence of the key. -/
def dictLookup {α : Type} : List (String × α) → String → Option α
  | [], _ => none
  | (k', v) :: rest, k => if k' = k then some v else dictLookup rest k

/-- Dict assignment `d[k] = v`: replace in place if present, else append. -/
def dictInsert {α : Type} : List (String × α) → String → α → List (String × α)
  | [], k, v => [(k, v)]
  | (k', v') :: rest, k, v =>
      if k' = k then (k, v) :: rest else (k', v') :: dictInsert rest k v

/-- Dict deletion `del d[k]`: remove the first occurrence of the key. -/
def dictErase {α : Type} : List (String × α) → String → List (String × α)
  | [], _ => []
  | (k', v') :: rest, k =>
      if k' = k then rest else (k', v') :: dictErase rest k

/-- In-place mutation of the object stored at a key (Python objects are
mutated through the reference obtained by lookup). -/
def dictModify {α : Type} : List (String × α) → String → (α → α) → List (String × α)
  | [], _, _ => []
  | (k', v') :: rest, k, f =>
      if k' = k then (k', f v') :: rest else (k', v') :: dictModify rest k f

/-! ## Configuration constants (`config.py`) -/

def MAX_POSITION_SIZE_PERCENT : ℚ := 2
def MAX_DAILY_LOSS_PERCENT : ℚ := 5
def MAX_TRADES_PER_DAY : ℕ := 50
def STOP_LOSS_PERCENT : ℚ := 3/2
def TRAILING_STOP_PERCENT : ℚ := 1

/-! ## `money_management.py` -/

/-- `Position` dataclass (datetime field elided). -/
structure Position where
  symbol : String
  side : String            -- 'BUY' or 'SELL'
  quantity : ℤ
  entry_price : ℚ
  stop_loss : ℚ
  take_profit : ℚ
  trailing_stop : Option ℚ := none
  highest_price : Option ℚ := none
  lowest_price : Option ℚ := none
  deriving DecidableEq, Repr

/-- One record of `trade_history` (datetime fields elided). -/
structure TradeRecord where
  symbol : String
  side : String
  quantity : ℤ
  entry_price : ℚ
  exit_price : ℚ
  pnl : ℚ
  reason : String
  deriving DecidableEq, Repr

/-- The mutable state of `MoneyManager` (the date field is elided; see the
module comment). -/
structure MoneyManager where
  initial_capital : ℚ
  current_capital : ℚ
  positions : List (String × Position)
  daily_pnl : ℚ
  daily_trades : ℕ
  trade_history : List TradeRecord
  equity_curve : List ℚ
  deriving DecidableEq, Repr

/-- `MoneyManager.__init__`. -/
def MoneyManager.init (initial_capital : ℚ) : MoneyManager :=
  { initial_capital := initial_capital
    current_capital := initial_capital
    positions := []
    daily_pnl := 0
    daily_trades := 0
    trade_history := []
    equity_curve := [initial_capital] }

/-- Reason kinds for `can_trade` (the code formats these as f-strings). -/
inductive CTReason where
  | dailyLossLimit
  | maxDailyTrades
  | allowed
  deriving DecidableEq, Repr

/-- `MoneyManager.can_trade` on a state whose calendar date has not advanced
(so that `reset_daily_stats` is the identity). -/
def canTrade (st : MoneyManager) : Bool × CTReason :=
  let daily_loss_limit := st.initial_capital * (MAX_DAILY_LOSS_PERCENT / 100)
  if st.daily_pnl < -daily_loss_limit then (false, .dailyLossLimit)
  else if st.daily_trades ≥ MAX_TRADES_PER_DAY then (false, .maxDailyTrades)
  else (true, .allowed)

/-- Python `int()` applied to a rational: truncation toward zero. -/
def pyInt (q : ℚ) : ℤ := if q < 0 then -⌊-q⌋ else ⌊q⌋

/-- `MoneyManager.calculate_position_size`. -/
def calculatePositionSize (st : MoneyManager) (price atr : ℚ) : ℤ :=
  let risk_amount := st.current_capital * (MAX_POSITION_SIZE_PERCENT / 100)
  let stop_distance := atr * 2
  let stop_distance :=
    if stop_distance ≤ 0 then price * (STOP_LOSS_PERCENT / 100) else stop_distance
  let shares :=
    if stop_distance > 0 then pyInt (risk_amount / stop_distance)
    else pyInt (risk_amount / price)
  let shares := max 1 shares
  let max_shares := pyInt (st.current_capital / price)
  min shares max_shares

/-- `MoneyManager.calculate_stop_loss`. -/
def calculateStopLoss (entry_price : ℚ) (side : String) (atr : ℚ) : ℚ :=
  let stop_distance := atr * 2
  if side = "BUY" then entry_price - stop_distance else entry_price + stop_distance

/-- `MoneyManager.calculate_take_profit`. -/
def calculateTakeProfit (entry_price : ℚ) (side : String) (atr : ℚ) : ℚ :=
  let profit_distance := atr * 4
  if side = "BUY" then entry_price + profit_distance else entry_price - profit_distance

/-- `MoneyManager.open_position`. -/
def openPosition (st : MoneyManager) (symbol side : String) (quantity : ℤ)
    (price atr : ℚ) : MoneyManager × Position :=
  let position : Position :=
    { symbol := symbol
      side := side
      quantity := quantity
      entry_price := price
      stop_loss := calculateStopLoss price side atr
      take_profit := calculateTakeProfit price side atr
      trailing_stop := none
      highest_price := if side = "BUY" then some price else none
      lowest_price := if side = "SELL" then some price else none }
  ({ st with
      positions := dictInsert st.positions symbol position
      daily_trades := st.daily_trades + 1
      current_capital := st.current_capital - quantity * price },
   position)

/-- Body of `MoneyManager.update_trailing_stop` acting on the position object
(the Python code mutates the looked-up `Position` in place). -/
def trailUpdate (p : Position) (current_price : ℚ) : Position :=
  let trailing_distance := p.entry_price * (TRAILING_STOP_PERCENT / 100)
  if p.side = "BUY" then
    match p.highest_price with
    | some h =>
        if current_price > h then
          let new_stop := current_price - trailing_distance
          { p with
              highest_price := some current_price
              trailing_stop :=
                match p.trailing_stop with
                | none => some new_stop
                | some t => if new_stop > t then some new_stop else some t }
        else p
    | none =>
        let new_stop := current_price - trailing_distance
        { p with
            highest_price := some current_price
            trailing_stop :=
              match p.trailing_stop with
              | none => some new_stop
              | some t => if new_stop > t then some new_stop else some t }
  else
    match p.lowest_price with
    | some l =>
        if current_price < l then
          let new_stop := current_price + trailing_distance
          { p with
              lowest_price := some current_price
              trailing_stop :=
                match p.trailing_stop with
                | none => some new_stop
                | some t => if new_stop < t then some new_stop else some t }
        else p
    | none =>
        let new_stop := current_price + trailing_distance
        { p with
            lowest_price := some current_price
            trailing_stop :=
              match p.trailing_stop with
              | none => some new_stop
              | some t => if new_stop < t then some new_stop else some t }

/-- `MoneyManager.update_trailing_stop` (no-op when the symbol is absent). -/
def updateTrailingStop (st : MoneyManager) (symbol : String) (current_price : ℚ) :
    MoneyManager :=
  match dictLookup st.positions symbol with
  | none => st
  | some _ => { st with positions := dictModify st.positions symbol (trailUpdate · current_price) }

/-- A sequence of `update_trailing_stop` calls, each a `(symbol, price)`
pair, applied in order. -/
def applyTrailCalls (st : MoneyManager) (calls : List (String × ℚ)) : MoneyManager :=
  calls.foldl (fun s c => updateTrailingStop s c.1 c.2) st

/-- The Python truthiness test `position.trailing_stop and current_price <= ts`:
`None` and `0.0` are both falsy. -/
def trailingHitLong (ts : Option ℚ) (current_price : ℚ) : Bool :=
  match ts with
  | none => false
  | some t => if t = 0 then false else decide (current_price ≤ t)

/-- Truthiness test for the SHORT branch: `ts and current_price >= ts`. -/
def trailingHitShort (ts : Option ℚ) (current_price : ℚ) : Bool :=
  match ts with
  | none => false
  | some t => if t = 0 then false else decide (current_price ≥ t)

/-- `MoneyManager.should_exit`. The Python method first mutates the position
via `update_trailing_stop`; the local `position` aliases the mutated object,
so the checks read the updated fields. Returns the pair and the new state. -/
def shouldExit (st : MoneyManager) (symbol : String) (current_price : ℚ) :
    (Bool × String) × MoneyManager :=
  match dictLookup st.positions symbol with
  | none => ((false, ""), st)
  | some p0 =>
      let st1 := updateTrailingStop st symbol current_price
      let p := trailUpdate p0 current_price
      if p.side = "BUY" then
        if current_price ≤ p.stop_loss then ((true, "STOP_LOSS"), st1)
        else if trailingHitLong p.trailing_stop current_price then
          ((true, "TRAILING_STOP"), st1)
        else if current_price ≥ p.take_profit then ((true, "TAKE_PROFIT"), st1)
        else ((false, ""), st1)
      else
        if current_price ≥ p.stop_loss then ((true, "STOP_LOSS"), st1)
        else if trailingHitShort p.trailing_stop current_price then
          ((true, "TRAILING_STOP"), st1)
        else if current_price ≤ p.take_profit then ((true, "TAKE_PROFIT"), st1)
        else ((false, ""), st1)

/-- `MoneyManager.close_position`. -/
def closePosition (st : MoneyManager) (symbol : String) (exit_price : ℚ)
    (reason : String) : MoneyManager × ℚ :=
  match dictLookup st.positions symbol with
  | none => (st, 0)
  | some p =>
      let pnl :=
        if p.side = "BUY" then (exit_price - p.entry_price) * p.quantity
        else (p.entry_price - exit_price) * p.quantity
      let new_capital := st.current_capital + p.quantity * exit_price
      ({ st with
          current_capital := new_capital
          daily_pnl := st.daily_pnl + pnl
          equity_curve := st.equity_curve ++ [new_capital]
          trade_history := st.trade_history ++
            [{ symbol := symbol
               side := p.side
               quantity := p.quantity
               entry_price := p.entry_price
               exit_price := exit_price
               pnl := pnl
               reason := reason }]
          positions := dictErase st.positions symbol },
       pnl)

/-- A rational extended with the value `float('inf')`. -/
inductive RatInf where
  | fin (q : ℚ)
  | inf
  deriving DecidableEq, Repr

/-- Gross profit over a trade history: `sum(pnl for pnl > 0)`. -/
def grossProfit (h : List TradeRecord) : ℚ :=
  ((h.filter (fun t => 0 < t.pnl)).map (fun t => t.pnl)).sum

/-- Gross loss over a trade history: `abs(sum(pnl for pnl < 0))`. -/
def grossLoss (h : List TradeRecord) : ℚ :=
  |((h.filter (fun t => t.pnl < 0)).map (fun t => t.pnl)).sum|

/-- `win_rate` as computed by `get_risk_metrics` on a non-empty history. -/
def winRate (h : List TradeRecord) : ℚ :=
  ((h.filter (fun t => 0 < t.pnl)).length : ℚ) / (h.length : ℚ) * 100

/-- `profit_factor` as computed by `get_risk_metrics` on a non-empty history:
`gross_profit / gross_loss if gross_loss > 0 else float('inf')`. -/
def profitFactor (h : List TradeRecord) : RatInf :=
  if grossLoss h > 0 then .fin (grossProfit h / grossLoss h) else .inf

/-- The `win_rate` and `profit_factor` fields of
`MoneyManager.get_risk_metrics` (both are `0.0` on an empty history; the
drawdown and Sharpe fields are not modelled, no claim concerns them). -/
def getRiskMetricsWR_PF (st : MoneyManager) : ℚ × RatInf :=
  if st.trade_history.length = 0 then (0, .fin 0)
  else (winRate st.trade_history, profitFactor st.trade_history)

/-! ## `strategies.py` — `MultiStrategyEngine.get_combined_signal`

The per-strategy `generate_signal` calls read indicator time series; they are
abstracted by an oracle `eval : String → Option ℤ` giving each strategy key's
verdict on the current data window, with `none` standing for an evaluation
that raises an exception (caught by the `except` branch). -/

/-- The strategy table of `MultiStrategyEngine.__init__`: key to weight. -/
def strategyWeight (name : String) : Option ℚ :=
  if name = "ma_crossover" then some 1
  else if name = "ema_crossover" then some 1
  else if name = "rsi" then some (4/5)
  else if name = "bollinger" then some (7/10)
  else if name = "macd" then some 1
  else if name = "vwap" then some (9/10)
  else if name = "supertrend" then some (6/5)
  else if name = "stoch_rsi" then some (4/5)
  else none

/-- One iteration of the loop in `get_combined_signal`, acting on the
accumulator `(signals, weighted_sum, total_weight)`. -/
def combineStep (eval : String → Option ℤ)
    (acc : List (String × ℤ) × ℚ × ℚ) (name : String) :
    List (String × ℤ) × ℚ × ℚ :=
  match strategyWeight name with
  | none => acc
  | some weight =>
      match eval name with
      | some signal =>
          (dictInsert acc.1 name signal,
           acc.2.1 + signal * weight,
           acc.2.2 + weight)
      | none => (dictInsert acc.1 name 0, acc.2.1, acc.2.2)

/-- `MultiStrategyEngine.get_combined_signal` on an explicit strategy list. -/
def getCombinedSignal (active : List String) (eval : String → Option ℤ) :
    ℤ × List (String × ℤ) :=
  let res := active.foldl (combineStep eval) ([], 0, 0)
  let normalized_signal := if res.2.2 > 0 then res.2.1 / res.2.2 else 0
  let final_signal : ℤ :=
    if normalized_signal > 3/10 then 1
    else if normalized_signal < -(3/10) then -1
    else 0
  (final_signal, res.1)

/-- `Σ (verdict · weight)` over the active strategies that evaluate
successfully (the only ones the loop accumulates). -/
def weightedSum : List String → (String → Option ℤ) → ℚ
  | [], _ => 0
  | n :: rest, eval =>
      (match strategyWeight n, eval n with
       | some w, some s => (s : ℚ) * w
       | _, _ => 0) + weightedSum rest eval

/-- `Σ weight` over the active strategies that evaluate successfully. -/
def totalWeight : List String → (String → Option ℤ) → ℚ
  | [], _ => 0
  | n :: rest, eval =>
      (match strategyWeight n, eval n with
       | some w, some _ => w
       | _, _ => 0) + totalWeight rest eval

/-! ## `engine.py` -/

/-- The priority-ordered keyword table of
`TradingEngine.load_active_strategies` (`name_map`), in source order. -/
def name_map : List (String × String) :=
  [("moving average", "ma_crossover"),
   ("ema crossover", "ema_crossover"),
   ("macd", "macd"),
   ("stochastic", "stoch_rsi"),
   ("bollinger", "bollinger"),
   ("supertrend", "supertrend"),
   ("vwap", "vwap"),
   ("rsi", "rsi")]

/-- `a` begins with `b` (character lists). -/
def beginsWith : List Char → List Char → Bool
  | _, [] => true
  | [], _ :: _ => false
  | a :: as, b :: bs => a = b && beginsWith as bs

/-- Python's substring test `needle in hay` on character lists. -/
def occursIn (hay needle : List Char) : Bool :=
  if beginsWith hay needle then true
  else
    match hay with
    | [] => false
    | _ :: t => occursIn t needle

/-- Python's `row.name.lower()`, modelled on the character list
(`Char.toLower` agrees with `str.lower` on the names involved). -/
def lowerData (s : String) : List Char := s.data.map Char.toLower

/-- The first `name_map` entry whose keyword occurs in the lowercased
external name, as in the inner loop of `load_active_strategies`. -/
def mapStrategyName (name : String) : Option String :=
  (name_map.find? (fun p => occursIn (lowerData name) p.1.data)).map (fun p => p.2)

/-- The accumulation loop of `load_active_strategies`: map each row name,
append the key if not already present (first occurrence wins). -/
def loadActiveStrategies (names : List String) : List String :=
  names.foldl
    (fun acc name =>
      match mapStrategyName name with
      | some key => if key ∈ acc then acc else acc ++ [key]
      | none => acc)
    []

/-- Reference form of the dedup: keep the first occurrence of each key. -/
def dedupFirst : List String → List String
  | [] => []
  | k :: rest => k :: (dedupFirst rest).filter (fun x => x ≠ k)

/-- The tick inputs of `TradingEngine.process_symbol` that come from the
outside world: market data availability, the latest close and ATR, the
combined strategy signal, and whether order submission succeeded. -/
structure TickInput where
  hasData : Bool      -- data is not None and has at least 50 rows
  price : ℚ           -- float(data['close'].iloc[-1])
  atr : ℚ             -- current ATR (or its fallback)
  signal : ℤ          -- get_combined_signal verdict
  execOk : Bool       -- execute_trade result
  deriving DecidableEq, Repr

/-- `TradingEngine.process_symbol` restricted to its effect on the money
manager. Returns the new state plus two event flags: whether
`close_position` was called and whether `open_position` was called for this
symbol during the tick. Logging and database persistence are elided. -/
def processSymbol (st : MoneyManager) (symbol : String) (inp : TickInput) :
    MoneyManager × Bool × Bool :=
  if ¬ inp.hasData then (st, false, false)
  else
    match dictLookup st.positions symbol with
    | some _ =>
        let res := shouldExit st symbol inp.price
        if res.1.1 then
          ((closePosition res.2 symbol inp.price res.1.2).1, true, false)
        else (res.2, false, false)
    | none =>
        if inp.signal = 0 then (st, false, false)
        else if ¬ (canTrade st).1 then (st, false, false)
        else if (dictLookup st.positions symbol).isSome then (st, false, false)
        else
          let side := if inp.signal = 1 then "BUY" else "SELL"
          if inp.execOk then
            ((openPosition st symbol side (calculatePositionSize st inp.price inp.atr)
                inp.price inp.atr).1,
             false, true)
          else (st, false, false)

/-- The trailing-stop condition of the claim for a LONG position, made
explicit about Python truthiness: the stop is set, nonzero, and at or above
the current price. -/
def trailingArmedLE (ts : Option ℚ) (price : ℚ) : Prop :=
  ∃ t, ts = some t ∧ t ≠ 0 ∧ price ≤ t

/-- The trailing-stop condition for a SHORT position: set, nonzero, and at
or below the current price. -/
def trailingArmedGE (ts : Option ℚ) (price : ℚ) : Prop :=
  ∃ t, ts = some t ∧ t ≠ 0 ∧ t ≤ price

/-- The successful verdict of a strategy, with a failed evaluation recorded
as 0 (the `except` branch of the loop). -/
def evalOrZero (eval : String → Option ℤ) (n : String) : ℤ :=
  match eval n with
  | some s => s
  | none => 0

/-! ## Concrete fixtures used by witnesses and counterexamples -/

/-- A LONG position held at entry 100 with a plain stop and target. -/
def posBuy : Position :=
  { symbol := "TCS", side := "BUY", quantity := 2, entry_price := 100
    stop_loss := 90, take_profit := 120 }

/-- A manager holding `posBuy`. -/
def stWithPos : MoneyManager :=
  { MoneyManager.init 1000 with positions := [("TCS", posBuy)] }

/-- A LONG position whose trailing stop is exactly `0.0` — truthy-falsy in
Python although it is set. High-water mark above the probe price so
`update_trailing_stop` leaves the position unchanged. -/
def posTrailZero : Position :=
  { symbol := "TCS", side := "BUY", quantity := 1, entry_price := 100
    stop_loss := -1, take_profit := 50, trailing_stop := some 0
    highest_price := some 5 }

/-- A manager holding `posTrailZero`. -/
def stTrailZero : MoneyManager :=
  { MoneyManager.init 1000 with positions := [("TCS", posTrailZero)] }

/-- A LONG position far from its stop and target, about to make a new high. -/
def posTrailMove : Position :=
  { symbol := "TCS", side := "BUY", quantity := 1, entry_price := 100
    stop_loss := 90, take_profit := 1000, trailing_stop := none
    highest_price := some 100 }

/-- A manager holding `posTrailMove`. -/
def stTrailMove : MoneyManager :=
  { MoneyManager.init 1000 with positions := [("TCS", posTrailMove)] }

/-- A tick at price 150: no exit rule triggers, but the price is a new high
so the trailing stop is rewritten. -/
def tickTrailMove : TickInput :=
  { hasData := true, price := 150, atr := 1, signal := 0, execOk := true }

/-- A closed trade with zero PnL. -/
def recZero : TradeRecord :=
  { symbol := "TCS", side := "BUY", quantity := 1, entry_price := 100
    exit_price := 100, pnl := 0, reason := "TAKE_PROFIT" }

/-- A manager whose only recorded trade broke even. -/
def stZeroPnl : MoneyManager :=
  { MoneyManager.init 1000 with trade_history := [recZero] }

/-- Twelve active entries whose weighted average is exactly 3/10:
three weight-1 BUY votes against 7·0.8 + 2·0.7 = 7 of HOLD weight. -/
def activeBoundary : List String :=
  ["ma_crossover", "ma_crossover", "ma_crossover",
   "rsi", "rsi", "rsi", "rsi", "rsi", "rsi", "rsi",
   "bollinger", "bollinger"]

/-- Verdict oracle for `activeBoundary`: `ma_crossover` votes BUY, the rest
HOLD. -/
def evalBoundary : String → Option ℤ :=
  fun n => if n = "ma_crossover" then some 1 else some 0

/-! ## Dictionary lemmas -/

theorem dictLookup_insert_self {α : Type} (d : List (String × α)) (k : String) (v : α) :
    dictLookup (dictInsert d k v) k = some v := by
  induction d with
  | nil => simp [dictInsert, dictLookup]
  | cons hd tl ih =>
      obtain ⟨k', v'⟩ := hd
      by_cases h : k' = k <;> simp [dictInsert, dictLookup, h, ih]

theorem dictLookup_insert_ne {α : Type} (d : List (String × α)) (k k' : String) (v : α)
    (h : k' ≠ k) : dictLookup (dictInsert d k v) k' = dictLookup d k' := by
  have h' : k ≠ k' := Ne.symm h
  induction d with
  | nil => simp [dictInsert, dictLookup, h']
  | cons hd tl ih =>
      obtain ⟨k₀, v₀⟩ := hd
      by_cases h₀ : k₀ = k
      · subst h₀; simp [dictInsert, dictLookup, h']
      · simp [dictInsert, dictLookup, h₀, ih]

theorem dictLookup_erase_ne {α : Type} (d : List (String × α)) (k k' : String)
    (h : k' ≠ k) : dictLookup (dictErase d k) k' = dictLookup d k' := by
  have h' : k ≠ k' := Ne.symm h
  induction d with
  | nil => simp [dictErase, dictLookup]
  | cons hd tl ih =>
      obtain ⟨k₀, v₀⟩ := hd
      by_cases h₀ : k₀ = k
      · subst h₀; simp [dictErase, dictLookup, h']
      · simp [dictErase, dictLookup, h₀, ih]

theorem dictLookup_none_of_key_absent {α : Type} (d : List (String × α)) (k : String)
    (h : k ∉ d.map Prod.fst) : dictLookup d k = none := by
  induction d with
  | nil => simp [dictLookup]
  | cons hd tl ih =>
      obtain ⟨k₀, v₀⟩ := hd
      simp only [List.map_cons, List.mem_cons] at h
      push_neg at h
      simp only [dictLookup, if_neg (Ne.symm h.1)]
      exact ih h.2

theorem dictLookup_erase_self {α : Type} (d : List (String × α)) (k : String)
    (h : (d.map Prod.fst).Nodup) : dictLookup (dictErase d k) k = none := by
  induction d with
  | nil => simp [dictErase, dictLookup]
  | cons hd tl ih =>
      obtain ⟨k₀, v₀⟩ := hd
      simp only [List.map_cons, List.nodup_cons] at h
      by_cases h₀ : k₀ = k
      · subst h₀
        simp only [dictErase, if_pos rfl]
        exact dictLookup_none_of_key_absent tl k₀ h.1
      · simp [dictErase, dictLookup, h₀, ih h.2]

theorem dictModify_keys {α : Type} (d : List (String × α)) (k : String) (f : α → α) :
    (dictModify d k f).map Prod.fst = d.map Prod.fst := by
  induction d with
  | nil => simp [dictModify]
  | cons hd tl ih =>
      obtain ⟨k₀, v₀⟩ := hd
      by_cases h₀ : k₀ = k <;> simp [dictModify, h₀, ih]

theorem dictLookup_modify_self {α : Type} (d : List (String × α)) (k : String) (f : α → α) :
    dictLookup (dictModify d k f) k = (dictLookup d k).map f := by
  induction d with
  | nil => simp [dictModify, dictLookup]
  | cons hd tl ih =>
      obtain ⟨k₀, v₀⟩ := hd
      by_cases h₀ : k₀ = k <;> simp [dictModify, dictLookup, h₀, ih]

theorem dictLookup_modify_ne {α : Type} (d : List (String × α)) (k k' : String) (f : α → α)
    (h : k' ≠ k) : dictLookup (dictModify d k f) k' = dictLookup d k' := by
  have h' : k ≠ k' := Ne.symm h
  induction d with
  | nil => simp [dictModify, dictLookup]
  | cons hd tl ih =>
      obtain ⟨k₀, v₀⟩ := hd
      by_cases h₀ : k₀ = k
      · subst h₀; simp [dictModify, dictLookup, h']
      · simp [dictModify, dictLookup, h₀, ih]

/-! ## C10 — `close_position` on an absent symbol is a no-op returning 0 -/

/-- C10: when no position exists for the symbol, `close_position` returns
`0.0` and leaves the whole money-manager state exactly unchanged. -/
theorem C10_closePosition_absent_noop (st : MoneyManager) (symbol : String)
    (exit_price : ℚ) (reason : String)
    (h : dictLookup st.positions symbol = none) :
    closePosition st symbol exit_price reason = (st, 0) := by
  simp [closePosition, h]

/-- C10 witness: the fresh manager holds no position on `"TCS"`, and closing
it returns the state untouched with PnL 0. -/
theorem C10_closePosition_absent_noop_holds :
    closePosition (MoneyManager.init 1000) "TCS" 5 "" = (MoneyManager.init 1000, 0) :=
  C10_closePosition_absent_noop (MoneyManager.init 1000) "TCS" 5 "" (by rfl)

/-! ## C1 — `can_trade` gating -/

/-- C1 counterexample: with capital 1000 the daily loss limit is 50, and at
`daily_pnl = −50` — exactly `−(initial_capital · 5%)`, where the claim says
trading must be blocked — `can_trade` still allows trading (the code compares
with strict `<`). -/
theorem C1_canTrade_boundary_allows :
    (-50 : ℚ) ≤ -((1000 : ℚ) * (MAX_DAILY_LOSS_PERCENT / 100)) ∧
    canTrade { MoneyManager.init 1000 with daily_pnl := -50 } = (true, CTReason.allowed) := by
  constructor
  · norm_num [MAX_DAILY_LOSS_PERCENT]
  · unfold canTrade
    norm_num [MoneyManager.init, MAX_DAILY_LOSS_PERCENT, MAX_TRADES_PER_DAY]

/-- C1 (amended): on a state whose calendar date has not advanced,
`can_trade` blocks with the daily-loss reason iff `daily_pnl` is strictly
below `−(initial_capital · 5%)`, blocks with the max-trades reason iff the
loss limit is not hit and `daily_trades ≥ 50`, and allows trading otherwise —
in particular at `daily_pnl` exactly equal to the negated limit (with the
trade count under 50) it still allows trading. -/
theorem C1_canTrade_characterization (st : MoneyManager) :
    (canTrade st = (false, CTReason.dailyLossLimit) ↔
      st.daily_pnl < -(st.initial_capital * (MAX_DAILY_LOSS_PERCENT / 100))) ∧
    (canTrade st = (false, CTReason.maxDailyTrades) ↔
      (¬ st.daily_pnl < -(st.initial_capital * (MAX_DAILY_LOSS_PERCENT / 100)) ∧
        MAX_TRADES_PER_DAY ≤ st.daily_trades)) ∧
    (canTrade st = (true, CTReason.allowed) ↔
      (¬ st.daily_pnl < -(st.initial_capital * (MAX_DAILY_LOSS_PERCENT / 100)) ∧
        st.daily_trades < MAX_TRADES_PER_DAY)) ∧
    (st.daily_pnl = -(st.initial_capital * (MAX_DAILY_LOSS_PERCENT / 100)) →
      st.daily_trades < MAX_TRADES_PER_DAY → (canTrade st).1 = true) := by
  by_cases h1 : st.daily_pnl < -(st.initial_capital * (MAX_DAILY_LOSS_PERCENT / 100))
  · refine ⟨by simp [canTrade, h1], by simp [canTrade, h1], by simp [canTrade, h1], ?_⟩
    intro he _
    rw [he] at h1
    exact absurd h1 (lt_irrefl _)
  · by_cases h2 : MAX_TRADES_PER_DAY ≤ st.daily_trades
    · refine ⟨by simp [canTrade, h1, h2], by simp [canTrade, h1, h2],
        by simp [canTrade, h1, h2], ?_⟩
      intro _ h3
      exact absurd h2 (Nat.not_le.mpr h3)
    · exact ⟨by simp [canTrade, h1, h2], by simp [canTrade, h1, h2],
        by simp [canTrade, h1, h2, Nat.lt_of_not_le h2], by
          intro _ _; simp [canTrade, h1, h2]⟩

/-! ## C6 — `open_position` -/

/-- C6: under the precondition that no position exists for the symbol,
`open_position` sets `stop_loss = price ∓ 2·atr` and
`take_profit = price ± 4·atr` (− / + for LONG, the reverse for SHORT),
stores the position under the symbol, increments the daily trade count by
exactly one, and deducts exactly `qty·price` from the current capital. -/
theorem C6_openPosition (st : MoneyManager) (symbol side : String) (qty : ℤ)
    (price atr : ℚ)
    (hno : dictLookup st.positions symbol = none)
    (hside : side = "BUY" ∨ side = "SELL") :
    (openPosition st symbol side qty price atr).2.stop_loss =
      (if side = "BUY" then price - 2 * atr else price + 2 * atr) ∧
    (openPosition st symbol side qty price atr).2.take_profit =
      (if side = "BUY" then price + 4 * atr else price - 4 * atr) ∧
    dictLookup (openPosition st symbol side qty price atr).1.positions symbol =
      some (openPosition st symbol side qty price atr).2 ∧
    (openPosition st symbol side qty price atr).1.daily_trades = st.daily_trades + 1 ∧
    (openPosition st symbol side qty price atr).1.current_capital =
      st.current_capital - qty * price := by
  refine ⟨?_, ?_, ?_, rfl, rfl⟩
  · rcases hside with h | h <;>
      simp [openPosition, calculateStopLoss, h, mul_comm]
  · rcases hside with h | h <;>
      simp [openPosition, calculateTakeProfit, h, mul_comm]
  · exact dictLookup_insert_self _ _ _

/-- C6 witness: opening 5 shares of `"TCS"` LONG at 100 with ATR 2 on a
fresh manager gives stop 96. -/
theorem C6_openPosition_holds :
    (openPosition (MoneyManager.init 1000) "TCS" "BUY" 5 100 2).2.stop_loss =
      (if "BUY" = "BUY" then (100 : ℚ) - 2 * 2 else 100 + 2 * 2) :=
  (C6_openPosition (MoneyManager.init 1000) "TCS" "BUY" 5 100 2 (by rfl)
    (Or.inl rfl)).1

/-! ## C2 — `close_position` on an open position -/

/-- C2: closing an open LONG (SHORT) position at `exit_price` returns
`pnl = (exit−entry)·qty` (`(entry−exit)·qty`), adds `qty·exit_price` back to
the current capital, adds the pnl to `daily_pnl`, appends exactly one
snapshot — the new capital — to the equity curve, appends exactly one
closed-trade record, and removes the position, leaving other symbols'
positions untouched. -/
theorem C2_closePosition (st : MoneyManager) (symbol : String) (exit_price : ℚ)
    (reason : String) (p : Position)
    (hp : dictLookup st.positions symbol = some p)
    (hside : p.side = "BUY" ∨ p.side = "SELL")
    (hnd : (st.positions.map Prod.fst).Nodup) :
    (closePosition st symbol exit_price reason).2 =
      (if p.side = "BUY" then (exit_price - p.entry_price) * p.quantity
       else (p.entry_price - exit_price) * p.quantity) ∧
    (closePosition st symbol exit_price reason).1.current_capital =
      st.current_capital + p.quantity * exit_price ∧
    (closePosition st symbol exit_price reason).1.daily_pnl =
      st.daily_pnl + (closePosition st symbol exit_price reason).2 ∧
    (closePosition st symbol exit_price reason).1.equity_curve =
      st.equity_curve ++ [(closePosition st symbol exit_price reason).1.current_capital] ∧
    (closePosition st symbol exit_price reason).1.trade_history =
      st.trade_history ++
        [{ symbol := symbol, side := p.side, quantity := p.quantity,
           entry_price := p.entry_price, exit_price := exit_price,
           pnl := (closePosition st symbol exit_price reason).2, reason := reason }] ∧
    dictLookup (closePosition st symbol exit_price reason).1.positions symbol = none ∧
    (∀ other, other ≠ symbol →
      dictLookup (closePosition st symbol exit_price reason).1.positions other =
        dictLookup st.positions other) := by
  clear hside
  refine ⟨?_, ?_, ?_, ?_, ?_, ?_, ?_⟩
  · simp [closePosition, hp]
  · simp [closePosition, hp]
  · simp [closePosition, hp]
  · simp [closePosition, hp]
  · simp [closePosition, hp]
  · simp only [closePosition, hp]
    exact dictLookup_erase_self _ _ hnd
  · intro other ho
    simp only [closePosition, hp]
    exact dictLookup_erase_ne _ _ _ ho

/-- C2 witness: closing the LONG 2-share position entered at 100 at exit
price 110 realizes `(110 − 100) · 2`. -/
theorem C2_closePosition_holds :
    (closePosition stWithPos "TCS" 110 "TAKE_PROFIT").2 =
      (if posBuy.side = "BUY" then ((110 : ℚ) - posBuy.entry_price) * posBuy.quantity
       else (posBuy.entry_price - 110) * posBuy.quantity) :=
  (C2_closePosition stWithPos "TCS" 110 "TAKE_PROFIT" posBuy (by rfl) (Or.inl rfl)
    (by simp [stWithPos, posBuy, MoneyManager.init])).1

/-! ## Lemmas on `trailUpdate` -/

theorem trailUpdate_side (p : Position) (price : ℚ) :
    (trailUpdate p price).side = p.side := by
  unfold trailUpdate
  split_ifs <;> (try rfl) <;>
    (cases p.highest_price <;> cases p.lowest_price <;> simp <;> split_ifs <;> rfl)

theorem trailingHitLong_iff (ts : Option ℚ) (price : ℚ) :
    trailingHitLong ts price = true ↔ trailingArmedLE ts price := by
  cases ts with
  | none => simp [trailingHitLong, trailingArmedLE]
  | some t =>
      by_cases h0 : t = 0
      · subst h0
        simp [trailingHitLong, trailingArmedLE]
      · simp [trailingHitLong, trailingArmedLE, h0]

theorem trailingHitShort_iff (ts : Option ℚ) (price : ℚ) :
    trailingHitShort ts price = true ↔ trailingArmedGE ts price := by
  cases ts with
  | none => simp [trailingHitShort, trailingArmedGE]
  | some t =>
      by_cases h0 : t = 0
      · subst h0
        simp [trailingHitShort, trailingArmedGE]
      · simp [trailingHitShort, trailingArmedGE, h0, ge_iff_le]

/-! ## C4 — `should_exit` -/

/-- C4 counterexample: a LONG position whose trailing stop is set to exactly
`0.0`; at price 0 the claim demands a `TRAILING_STOP` exit (stop not
triggered, trailing stop set with `price ≤ 0`), but because Python treats
`0.0` as falsy the code reports no exit at all. -/
theorem C4_trailingStop_zero_ignored :
    posTrailZero.side = "BUY" ∧
    posTrailZero.trailing_stop = some 0 ∧
    ((0 : ℚ) ≤ 0) ∧
    ¬ ((0 : ℚ) ≤ posTrailZero.stop_loss) ∧
    ¬ ((0 : ℚ) ≥ posTrailZero.take_profit) ∧
    (shouldExit stTrailZero "TCS" 0).1 = (false, "") := by
  refine ⟨rfl, rfl, le_refl 0, by norm_num [posTrailZero], by norm_num [posTrailZero], ?_⟩
  simp only [shouldExit, stTrailZero, posTrailZero, MoneyManager.init, dictLookup,
    trailUpdate, trailingHitLong, updateTrailingStop, TRAILING_STOP_PERCENT]
  norm_num

/-- C4 (amended): `should_exit` first runs `update_trailing_stop` and then
tests the updated position in the priority order STOP_LOSS > TRAILING_STOP >
TAKE_PROFIT — for LONG: exit `(true, STOP_LOSS)` iff `price ≤ stop_loss`,
`(true, TRAILING_STOP)` iff the stop is not hit and the trailing stop is set
to a nonzero value with `price ≤ trailing_stop` (Python truthiness: a
trailing stop of exactly `0.0` is treated as unset), `(true, TAKE_PROFIT)`
iff neither fires and `price ≥ take_profit`, and `(false, "")` otherwise;
symmetric for SHORT; `(false, "")` with the state untouched when no position
exists. -/
theorem C4_shouldExit_characterization (st : MoneyManager) (symbol : String) (price : ℚ) :
    (dictLookup st.positions symbol = none →
      shouldExit st symbol price = ((false, ""), st)) ∧
    (∀ p0, dictLookup st.positions symbol = some p0 →
      (shouldExit st symbol price).2 = updateTrailingStop st symbol price ∧
      (p0.side = "BUY" →
        (((shouldExit st symbol price).1 = (true, "STOP_LOSS")) ↔
          price ≤ (trailUpdate p0 price).stop_loss) ∧
        (((shouldExit st symbol price).1 = (true, "TRAILING_STOP")) ↔
          (¬ price ≤ (trailUpdate p0 price).stop_loss ∧
            trailingArmedLE (trailUpdate p0 price).trailing_stop price)) ∧
        (((shouldExit st symbol price).1 = (true, "TAKE_PROFIT")) ↔
          (¬ price ≤ (trailUpdate p0 price).stop_loss ∧
            ¬ trailingArmedLE (trailUpdate p0 price).trailing_stop price ∧
            (trailUpdate p0 price).take_profit ≤ price)) ∧
        (((shouldExit st symbol price).1 = (false, "")) ↔
          (¬ price ≤ (trailUpdate p0 price).stop_loss ∧
            ¬ trailingArmedLE (trailUpdate p0 price).trailing_stop price ∧
            ¬ (trailUpdate p0 price).take_profit ≤ price))) ∧
      (p0.side ≠ "BUY" →
        (((shouldExit st symbol price).1 = (true, "STOP_LOSS")) ↔
          (trailUpdate p0 price).stop_loss ≤ price) ∧
        (((shouldExit st symbol price).1 = (true, "TRAILING_STOP")) ↔
          (¬ (trailUpdate p0 price).stop_loss ≤ price ∧
            trailingArmedGE (trailUpdate p0 price).trailing_stop price)) ∧
        (((shouldExit st symbol price).1 = (true, "TAKE_PROFIT")) ↔
          (¬ (trailUpdate p0 price).stop_loss ≤ price ∧
            ¬ trailingArmedGE (trailUpdate p0 price).trailing_stop price ∧
            price ≤ (trailUpdate p0 price).take_profit)) ∧
        (((shouldExit st symbol price).1 = (false, "")) ↔
          (¬ (trailUpdate p0 price).stop_loss ≤ price ∧
            ¬ trailingArmedGE (trailUpdate p0 price).trailing_stop price ∧
            ¬ price ≤ (trailUpdate p0 price).take_profit)))) := by
  constructor
  · intro h
    simp [shouldExit, h]
  · intro p0 hp
    have hside := trailUpdate_side p0 price
    refine ⟨?_, ?_, ?_⟩
    · simp only [shouldExit, hp]
      split_ifs <;> rfl
    · intro hb
      have hpb : (trailUpdate p0 price).side = "BUY" := hside.trans hb
      simp only [shouldExit, hp, hpb, if_true, ge_iff_le]
      by_cases h1 : price ≤ (trailUpdate p0 price).stop_loss
      · simp [h1]
      · by_cases h2 : trailingHitLong (trailUpdate p0 price).trailing_stop price
        · have h2' := (trailingHitLong_iff _ price).mp h2
          simp [h1, h2, h2', Prod.ext_iff]
        · have h2' : ¬ trailingArmedLE (trailUpdate p0 price).trailing_stop price :=
            fun hc => h2 ((trailingHitLong_iff _ price).mpr hc)
          by_cases h3 : (trailUpdate p0 price).take_profit ≤ price
          · simp [h1, h2, h2', h3, Prod.ext_iff]
          · simp [h1, h2, h2', h3, Prod.ext_iff]
    · intro hb
      have hpb : ¬ (trailUpdate p0 price).side = "BUY" := fun e => hb (hside.symm.trans e)
      simp only [shouldExit, hp, hpb, if_false, ge_iff_le]
      by_cases h1 : (trailUpdate p0 price).stop_loss ≤ price
      · simp [h1]
      · by_cases h2 : trailingHitShort (trailUpdate p0 price).trailing_stop price
        · have h2' := (trailingHitShort_iff _ price).mp h2
          simp [h1, h2, h2', Prod.ext_iff]
        · have h2' : ¬ trailingArmedGE (trailUpdate p0 price).trailing_stop price :=
            fun hc => h2 ((trailingHitShort_iff _ price).mpr hc)
          by_cases h3 : price ≤ (trailUpdate p0 price).take_profit
          · simp [h1, h2, h2', h3, Prod.ext_iff]
          · simp [h1, h2, h2', h3, Prod.ext_iff]

/-! ## C5 — trailing-stop monotonicity -/

theorem if_gt_eq_max (a b : ℚ) : (if b > a then b else a) = max a b := by
  split_ifs with h
  · exact (max_eq_right (le_of_lt h)).symm
  · exact (max_eq_left (not_lt.mp h)).symm

theorem if_lt_eq_min (a b : ℚ) : (if b < a then b else a) = min a b := by
  split_ifs with h
  · exact (min_eq_right (le_of_lt h)).symm
  · exact (min_eq_left (not_lt.mp h)).symm

theorem trailUpdate_ts_mono_long (p : Position) (price t : ℚ)
    (hb : p.side = "BUY") (h : p.trailing_stop = some t) :
    ∃ t', (trailUpdate p price).trailing_stop = some t' ∧ t ≤ t' := by
  simp only [trailUpdate, hb, if_true]
  cases hh : p.highest_price with
  | none =>
      by_cases hc : price - p.entry_price * (TRAILING_STOP_PERCENT / 100) > t
      · exact ⟨_, by simp [h, hc], le_of_lt hc⟩
      · exact ⟨t, by simp [h, hc], le_refl t⟩
  | some h0 =>
      by_cases hgt : price > h0
      · by_cases hc : price - p.entry_price * (TRAILING_STOP_PERCENT / 100) > t
        · exact ⟨_, by simp [hgt, h, hc], le_of_lt hc⟩
        · exact ⟨t, by simp [hgt, h, hc], le_refl t⟩
      · exact ⟨t, by simp [hgt, h], le_refl t⟩

theorem trailUpdate_ts_mono_short (p : Position) (price t : ℚ)
    (hb : p.side ≠ "BUY") (h : p.trailing_stop = some t) :
    ∃ t', (trailUpdate p price).trailing_stop = some t' ∧ t' ≤ t := by
  simp only [trailUpdate, if_neg hb]
  cases hh : p.lowest_price with
  | none =>
      by_cases hc : price + p.entry_price * (TRAILING_STOP_PERCENT / 100) < t
      · exact ⟨_, by simp [h, hc], le_of_lt hc⟩
      · exact ⟨t, by simp [h, hc], le_refl t⟩
  | some l0 =>
      by_cases hlt : price < l0
      · by_cases hc : price + p.entry_price * (TRAILING_STOP_PERCENT / 100) < t
        · exact ⟨_, by simp [hlt, h, hc], le_of_lt hc⟩
        · exact ⟨t, by simp [hlt, h, hc], le_refl t⟩
      · exact ⟨t, by simp [hlt, h], le_refl t⟩

theorem updateTrailingStop_mono_step (st : MoneyManager) (sym : String)
    (p : Position) (t : ℚ)
    (hp : dictLookup st.positions sym = some p) (ht : p.trailing_stop = some t)
    (c : String × ℚ) :
    ∃ p', dictLookup (updateTrailingStop st c.1 c.2).positions sym = some p' ∧
      p'.side = p.side ∧
      ∃ t', p'.trailing_stop = some t' ∧
        (p.side = "BUY" → t ≤ t') ∧ (p.side ≠ "BUY" → t' ≤ t) := by
  by_cases hc : c.1 = sym
  · subst hc
    simp only [updateTrailingStop, hp]
    refine ⟨trailUpdate p c.2, ?_, trailUpdate_side p c.2, ?_⟩
    · rw [dictLookup_modify_self, hp]
      rfl
    by_cases hb : p.side = "BUY"
    · obtain ⟨t', h1, h2⟩ := trailUpdate_ts_mono_long p c.2 t hb ht
      exact ⟨t', h1, fun _ => h2, fun hnb => absurd hb hnb⟩
    · obtain ⟨t', h1, h2⟩ := trailUpdate_ts_mono_short p c.2 t hb ht
      exact ⟨t', h1, fun hb' => absurd hb' hb, fun _ => h2⟩
  · refine ⟨p, ?_, rfl, t, ht, fun _ => le_refl t, fun _ => le_refl t⟩
    unfold updateTrailingStop
    cases dictLookup st.positions c.1 with
    | none => exact hp
    | some q =>
        have := dictLookup_modify_ne st.positions c.1 sym (trailUpdate · c.2)
          (fun e => hc e.symm)
        simpa [this] using hp

/-- C5: the trailing stop moves only in the holder's favor. For LONG, a
price strictly above the recorded high (or a missing high) rewrites the high
to the current price and sets the trailing stop to
`max(existing, price − entry_price·1%)` (the candidate alone when unset);
symmetrically for SHORT with `min`. Consequently, over any sequence of
`update_trailing_stop` calls, a LONG trailing stop never decreases and a
SHORT one never increases. -/
theorem C5_trailing_monotone :
    (∀ (p : Position) (price : ℚ), p.side = "BUY" →
      (p.highest_price = none ∨ ∃ h0, p.highest_price = some h0 ∧ h0 < price) →
      (trailUpdate p price).highest_price = some price ∧
      (p.trailing_stop = none →
        (trailUpdate p price).trailing_stop =
          some (price - p.entry_price * (TRAILING_STOP_PERCENT / 100))) ∧
      (∀ t, p.trailing_stop = some t →
        (trailUpdate p price).trailing_stop =
          some (max t (price - p.entry_price * (TRAILING_STOP_PERCENT / 100))))) ∧
    (∀ (p : Position) (price : ℚ), p.side ≠ "BUY" →
      (p.lowest_price = none ∨ ∃ l0, p.lowest_price = some l0 ∧ price < l0) →
      (trailUpdate p price).lowest_price = some price ∧
      (p.trailing_stop = none →
        (trailUpdate p price).trailing_stop =
          some (price + p.entry_price * (TRAILING_STOP_PERCENT / 100))) ∧
      (∀ t, p.trailing_stop = some t →
        (trailUpdate p price).trailing_stop =
          some (min t (price + p.entry_price * (TRAILING_STOP_PERCENT / 100))))) ∧
    (∀ (st : MoneyManager) (sym : String) (p : Position) (t : ℚ)
        (calls : List (String × ℚ)),
      dictLookup st.positions sym = some p → p.trailing_stop = some t →
      ∃ p' t', dictLookup (applyTrailCalls st calls).positions sym = some p' ∧
        p'.trailing_stop = some t' ∧
        (p.side = "BUY" → t ≤ t') ∧ (p.side ≠ "BUY" → t' ≤ t)) := by
  refine ⟨?_, ?_, ?_⟩
  · intro p price hb hhi
    refine ⟨?_, ?_, ?_⟩
    · rcases hhi with h0 | ⟨h0, hh0, hlt⟩ <;>
        simp [trailUpdate, hb, gt_iff_lt, *]
    · intro hts
      rcases hhi with h0 | ⟨h0, hh0, hlt⟩ <;>
        simp [trailUpdate, hb, gt_iff_lt, *]
    · intro t hts
      by_cases hcand : price - p.entry_price * (TRAILING_STOP_PERCENT / 100) > t
      · rcases hhi with h0 | ⟨h0, hh0, hlt⟩ <;>
          simp [trailUpdate, hb, gt_iff_lt, max_eq_right (le_of_lt hcand), *]
      · rcases hhi with h0 | ⟨h0, hh0, hlt⟩ <;>
          simp [trailUpdate, hb, gt_iff_lt, max_eq_left (not_lt.mp hcand), *]
  · intro p price hb hlo
    refine ⟨?_, ?_, ?_⟩
    · rcases hlo with h0 | ⟨l0, hl0, hlt⟩ <;>
        simp [trailUpdate, hb, *]
    · intro hts
      rcases hlo with h0 | ⟨l0, hl0, hlt⟩ <;>
        simp [trailUpdate, hb, *]
    · intro t hts
      by_cases hcand : price + p.entry_price * (TRAILING_STOP_PERCENT / 100) < t
      · rcases hlo with h0 | ⟨l0, hl0, hlt⟩ <;>
          simp [trailUpdate, hb, min_eq_right (le_of_lt hcand), *]
      · rcases hlo with h0 | ⟨l0, hl0, hlt⟩ <;>
          simp [trailUpdate, hb, min_eq_left (not_lt.mp hcand), *]
  · intro st sym p t calls
    induction calls generalizing st p t with
    | nil =>
        intro hp ht
        exact ⟨p, t, hp, ht, fun _ => le_refl t, fun _ => le_refl t⟩
    | cons c rest ih =>
        intro hp ht
        obtain ⟨p', hp', hside', t', ht', hlo, hhi⟩ :=
          updateTrailingStop_mono_step st sym p t hp ht c
        obtain ⟨p'', t'', hp'', ht'', hlo'', hhi''⟩ :=
          ih (updateTrailingStop st c.1 c.2) p' t' hp' ht'
        refine ⟨p'', t'', hp'', ht'', ?_, ?_⟩
        · intro hb
          exact le_trans (hlo hb) (hlo'' (hside'.trans hb))
        · intro hb
          exact le_trans (hhi'' (fun e => hb (hside'.symm.trans e))) (hhi hb)

/-! ## C8 — `get_risk_metrics`: win rate and profit factor -/

/-- C8 counterexample: a non-empty history whose only trade broke even has
`gross_profit = gross_loss = 0`; the claim says the profit factor is then 0,
but the code's `else float('inf')` branch yields ∞ whenever
`gross_loss = 0`, including here. -/
theorem C8_profitFactor_breakeven_inf :
    stZeroPnl.trade_history ≠ [] ∧
    grossProfit stZeroPnl.trade_history = 0 ∧
    grossLoss stZeroPnl.trade_history = 0 ∧
    (getRiskMetricsWR_PF stZeroPnl).2 = RatInf.inf := by
  refine ⟨by simp [stZeroPnl, MoneyManager.init], ?_, ?_, ?_⟩
  · simp [grossProfit, stZeroPnl, recZero, MoneyManager.init, List.filter]
  · simp [grossLoss, stZeroPnl, recZero, MoneyManager.init, List.filter]
  · simp only [getRiskMetricsWR_PF, stZeroPnl, recZero, MoneyManager.init,
      profitFactor, grossProfit, grossLoss]
    norm_num [List.filter]

/-- C8 (amended): on a non-empty trade history, `win_rate` is
`wins/total · 100`, and `profit_factor` is `gross_profit / |gross_loss|`
when the gross loss is positive and ∞ whenever the gross loss is zero —
including the case where the gross profit is zero as well (the code never
returns 0 there). -/
theorem C8_riskMetrics (st : MoneyManager) (hne : st.trade_history ≠ []) :
    (getRiskMetricsWR_PF st).1 =
      ((st.trade_history.filter (fun t => 0 < t.pnl)).length : ℚ) /
        (st.trade_history.length : ℚ) * 100 ∧
    (0 < grossLoss st.trade_history →
      (getRiskMetricsWR_PF st).2 =
        RatInf.fin (grossProfit st.trade_history / grossLoss st.trade_history)) ∧
    (grossLoss st.trade_history = 0 →
      (getRiskMetricsWR_PF st).2 = RatInf.inf) := by
  have hlen : ¬ st.trade_history.length = 0 := by
    simpa [List.length_eq_zero] using hne
  refine ⟨?_, ?_, ?_⟩
  · simp [getRiskMetricsWR_PF, winRate, hlen]
  · intro hgl
    simp [getRiskMetricsWR_PF, profitFactor, hlen, hgl]
  · intro hgl
    simp [getRiskMetricsWR_PF, profitFactor, hlen, hgl]

/-- C8 witness: the break-even single-trade history has win rate
`0/1 · 100`. -/
theorem C8_riskMetrics_holds :
    (getRiskMetricsWR_PF stZeroPnl).1 =
      ((stZeroPnl.trade_history.filter (fun t => 0 < t.pnl)).length : ℚ) /
        (stZeroPnl.trade_history.length : ℚ) * 100 :=
  (C8_riskMetrics stZeroPnl (by simp [stZeroPnl, MoneyManager.init])).1

/-! ## C9 — mapping external strategy names to keys -/

/-- C9 counterexample: `"Macd Moving Average"` contains the keyword `macd`,
yet the mapping yields `ma_crossover`, because the source's `name_map` lists
`('moving average', 'ma_crossover')` FIRST — `macd`/`ema crossover` are not
tested before `ma_crossover` as the claim states. -/
theorem C9_macd_not_before_ma :
    occursIn (lowerData "Macd Moving Average") ("macd".data) = true ∧
    mapStrategyName "Macd Moving Average" = some "ma_crossover" ∧
    ("ma_crossover" : String) ≠ "macd" := by
  refine ⟨?_, ?_, ?_⟩ <;> decide

theorem dedupFirst_nodup (l : List String) : (dedupFirst l).Nodup := by
  induction l with
  | nil => simp [dedupFirst]
  | cons k rest ih =>
      simp only [dedupFirst, List.nodup_cons]
      refine ⟨?_, ih.filter _⟩
      intro hmem
      have := List.of_mem_filter hmem
      simp at this

theorem loadActiveStrategies_aux (names : List String) :
    ∀ acc : List String,
      names.foldl
        (fun acc name =>
          match mapStrategyName name with
          | some key => if key ∈ acc then acc else acc ++ [key]
          | none => acc) acc =
      acc ++ (dedupFirst (names.filterMap mapStrategyName)).filter
        (fun k => ¬ k ∈ acc) := by
  induction names with
  | nil => intro acc; simp [dedupFirst]
  | cons n rest ih =>
      intro acc
      cases hm : mapStrategyName n with
      | none =>
          simp only [List.foldl_cons, List.filterMap_cons, hm]
          exact ih acc
      | some k =>
          simp only [List.foldl_cons, List.filterMap_cons, hm]
          by_cases hk : k ∈ acc
          · simp only [if_pos hk]
            rw [ih acc]
            congr 1
            simp only [dedupFirst]
            rw [List.filter_cons_of_neg (by simpa using hk), List.filter_filter]
            apply List.filter_congr
            intro x _
            by_cases hx : x ∈ acc
            · simp [hx]
            · have hxk : ¬ x = k := fun e => hx (e ▸ hk)
              simp [hx, hxk]
          · simp only [if_neg hk]
            rw [ih (acc ++ [k])]
            simp only [dedupFirst]
            rw [List.filter_cons_of_pos (by simpa using hk), List.filter_filter,
              List.append_assoc]
            congr 1
            rw [List.singleton_append]
            congr 1
            apply List.filter_congr
            intro x _
            by_cases hxk : x = k
            · subst hxk
              simp [List.mem_append]
            · by_cases hx : x ∈ acc <;> simp [List.mem_append, hx, hxk]

/-- C9 (amended): the external-name mapping is a priority-ordered substring
match over the source's `name_map`, whose order is: `moving average` (→
ma_crossover) FIRST, then `ema crossover`, `macd`, `stochastic`,
`bollinger`, `supertrend`, `vwap`, `rsi` — so `ma_crossover`'s keyword is
tested before `macd`'s and `ema_crossover`'s, while `stochastic` is still
tested before `rsi`; each name yields at most one key (the first matching
entry), and duplicate keys are de-duplicated preserving first occurrence. -/
theorem C9_loadActiveStrategies (names : List String) :
    loadActiveStrategies names = dedupFirst (names.filterMap mapStrategyName) ∧
    (loadActiveStrategies names).Nodup ∧
    name_map.map Prod.fst =
      ["moving average", "ema crossover", "macd", "stochastic", "bollinger",
       "supertrend", "vwap", "rsi"] ∧
    mapStrategyName "Stochastic RSI" = some "stoch_rsi" := by
  have h1 : loadActiveStrategies names =
      dedupFirst (names.filterMap mapStrategyName) := by
    unfold loadActiveStrategies
    rw [loadActiveStrategies_aux names []]
    simp
  refine ⟨h1, ?_, by decide, by decide⟩
  rw [h1]
  exact dedupFirst_nodup _

/-! ## C3 — weighted voting in `get_combined_signal` -/

theorem combineFold_sums (eval : String → Option ℤ) (active : List String) :
    ∀ acc : List (String × ℤ) × ℚ × ℚ,
      (active.foldl (combineStep eval) acc).2.1 = acc.2.1 + weightedSum active eval ∧
      (active.foldl (combineStep eval) acc).2.2 = acc.2.2 + totalWeight active eval := by
  induction active with
  | nil => intro acc; simp [weightedSum, totalWeight]
  | cons n rest ih =>
      intro acc
      simp only [List.foldl_cons, weightedSum, totalWeight]
      obtain ⟨ih1, ih2⟩ := ih (combineStep eval acc n)
      rw [ih1, ih2]
      unfold combineStep
      cases hw : strategyWeight n with
      | none => simp [hw]
      | some w =>
          cases he : eval n with
          | none => simp [he]
          | some s => simp [he, add_assoc]

theorem combineFold_lookup_preserved (eval : String → Option ℤ) (n : String)
    (active : List String) (hn : ∀ m ∈ active, m ≠ n) :
    ∀ acc : List (String × ℤ) × ℚ × ℚ,
      dictLookup (active.foldl (combineStep eval) acc).1 n = dictLookup acc.1 n := by
  induction active with
  | nil => intro acc; rfl
  | cons m rest ih =>
      intro acc
      simp only [List.foldl_cons]
      rw [ih (fun m' hm' => hn m' (List.mem_cons_of_mem m hm'))]
      have hmn : n ≠ m := Ne.symm (hn m (List.mem_cons_self m rest))
      unfold combineStep
      cases hw : strategyWeight m with
      | none => rfl
      | some w =>
          cases he : eval m with
          | none => exact dictLookup_insert_ne _ _ _ _ hmn
          | some s => exact dictLookup_insert_ne _ _ _ _ hmn

theorem combineFold_lookup (eval : String → Option ℤ) (n : String)
    (active : List String) (hw : (strategyWeight n).isSome) (hm : n ∈ active) :
    ∀ acc : List (String × ℤ) × ℚ × ℚ,
      dictLookup (active.foldl (combineStep eval) acc).1 n =
        some (evalOrZero eval n) := by
  induction active with
  | nil => cases hm
  | cons m rest ih =>
      intro acc
      simp only [List.foldl_cons]
      by_cases hr : n ∈ rest
      · exact ih hr _
      · have hnm : n = m := by
          rcases List.mem_cons.mp hm with h | h
          · exact h
          · exact absurd h hr
        subst hnm
        rw [combineFold_lookup_preserved eval n rest
          (fun m' hm' => fun e => hr (e ▸ hm'))]
        obtain ⟨w, hw'⟩ := Option.isSome_iff_exists.mp hw
        unfold combineStep
        rw [hw']
        cases he : eval n with
        | none =>
            simp only [evalOrZero, he]
            exact dictLookup_insert_self _ _ _
        | some s =>
            simp only [evalOrZero, he]
            exact dictLookup_insert_self _ _ _

/-- C3: with every active entry a known strategy key and a positive total
weight over the successfully evaluated strategies, the combined verdict is
`+1` iff the weighted average `Σ(verdict·weight)/Σ(weight)` exceeds `3/10`
strictly, `−1` iff it is strictly below `−3/10`, and `0` on the whole closed
band `[−3/10, 3/10]` including both endpoints; every active key is present
in the returned signals map, a failed evaluation being recorded as 0. -/
theorem C3_getCombinedSignal (active : List String) (eval : String → Option ℤ)
    (hk : ∀ n ∈ active, (strategyWeight n).isSome)
    (htw : 0 < totalWeight active eval) :
    ((getCombinedSignal active eval).1 =
      if 3/10 < weightedSum active eval / totalWeight active eval then 1
      else if weightedSum active eval / totalWeight active eval < -(3/10) then -1
      else 0) ∧
    (-(3/10) ≤ weightedSum active eval / totalWeight active eval →
      weightedSum active eval / totalWeight active eval ≤ 3/10 →
      (getCombinedSignal active eval).1 = 0) ∧
    (∀ n ∈ active, dictLookup (getCombinedSignal active eval).2 n =
      some (evalOrZero eval n)) := by
  obtain ⟨hws, htw'⟩ := combineFold_sums eval active ([], 0, 0)
  rw [zero_add] at hws htw'
  have hchar : (getCombinedSignal active eval).1 =
      if 3/10 < weightedSum active eval / totalWeight active eval then 1
      else if weightedSum active eval / totalWeight active eval < -(3/10) then -1
      else 0 := by
    simp only [getCombinedSignal, hws, htw', gt_iff_lt, if_pos htw]
  refine ⟨hchar, ?_, ?_⟩
  · intro hlo hhi
    rw [hchar, if_neg (not_lt.mpr hhi), if_neg (not_lt.mpr hlo)]
  · intro n hn
    simpa only [getCombinedSignal] using
      combineFold_lookup eval n active (hk n hn) hn ([], 0, 0)

/-- C3 witness: on `activeBoundary` the weighted average is exactly `3/10`
(weighted sum 3 over total weight 10) and the combined verdict is 0. -/
theorem C3_getCombinedSignal_holds :
    (getCombinedSignal activeBoundary evalBoundary).1 = 0 := by
  have hws : weightedSum activeBoundary evalBoundary = 3 := by
    simp [weightedSum, activeBoundary, evalBoundary, strategyWeight]
    norm_num
  have htw : totalWeight activeBoundary evalBoundary = 10 := by
    simp [totalWeight, activeBoundary, evalBoundary, strategyWeight]
    norm_num
  refine (C3_getCombinedSignal activeBoundary evalBoundary (by decide) ?_).2.1 ?_ ?_
  · rw [htw]; norm_num
  · rw [hws, htw]; norm_num
  · rw [hws, htw]

/-! ## C7 — no exit and entry on the same symbol in the same tick -/

theorem shouldExit_snd (st : MoneyManager) (sym : String) (price : ℚ) (p0 : Position)
    (hp : dictLookup st.positions sym = some p0) :
    (shouldExit st sym price).2 = updateTrailingStop st sym price := by
  simp only [shouldExit, hp]
  split_ifs <;> rfl

theorem updateTrailingStop_lookup (st : MoneyManager) (sym : String) (price : ℚ)
    (p0 : Position) (hp : dictLookup st.positions sym = some p0) :
    dictLookup (updateTrailingStop st sym price).positions sym =
      some (trailUpdate p0 price) := by
  simp only [updateTrailingStop, hp]
  rw [dictLookup_modify_self, hp]
  rfl

theorem updateTrailingStop_keys (st : MoneyManager) (sym : String) (price : ℚ) :
    (updateTrailingStop st sym price).positions.map Prod.fst =
      st.positions.map Prod.fst := by
  unfold updateTrailingStop
  cases dictLookup st.positions sym with
  | none => rfl
  | some q => exact dictModify_keys _ _ _

theorem trailUpdate_fields (p : Position) (price : ℚ) :
    (trailUpdate p price).side = p.side ∧
    (trailUpdate p price).quantity = p.quantity ∧
    (trailUpdate p price).entry_price = p.entry_price ∧
    (trailUpdate p price).stop_loss = p.stop_loss ∧
    (trailUpdate p price).take_profit = p.take_profit := by
  unfold trailUpdate
  split_ifs <;>
    (cases p.highest_price <;> cases p.lowest_price <;> simp <;> split_ifs <;>
      simp)

/-- C7 counterexample: with a LONG position far from both its stop and its
target, a tick at a new high closes nothing and opens nothing, yet the
position is NOT left unchanged — `should_exit`'s call to
`update_trailing_stop` rewrites its trailing-stop fields. -/
theorem C7_tick_updates_position :
    dictLookup stTrailMove.positions "TCS" = some posTrailMove ∧
    (processSymbol stTrailMove "TCS" tickTrailMove).2 = (false, false) ∧
    dictLookup (processSymbol stTrailMove "TCS" tickTrailMove).1.positions "TCS" ≠
      some posTrailMove := by
  refine ⟨rfl, ?_, ?_⟩
  · simp only [processSymbol, tickTrailMove, stTrailMove, posTrailMove,
      MoneyManager.init, dictLookup, shouldExit, updateTrailingStop, dictModify,
      trailUpdate, trailingHitLong, TRAILING_STOP_PERCENT]
    norm_num
  · simp only [processSymbol, tickTrailMove, stTrailMove, posTrailMove,
      MoneyManager.init, dictLookup, shouldExit, updateTrailingStop, dictModify,
      trailUpdate, trailingHitLong, TRAILING_STOP_PERCENT]
    norm_num [dictLookup]

/-- C7 (amended): in a single tick an exit and an entry never both occur for
one symbol — the exit flag and the entry flag are never both set; when a
position exists at the start of the tick nothing is opened, and the tick
either closes the position (removing it) or leaves it open with the same
side, quantity, entry, stop and target, at most its trailing-stop fields
updated by `update_trailing_stop`; when no position exists nothing is
closed; at most one position is opened per symbol per tick. -/
theorem C7_processSymbol_exit_entry_exclusive (st : MoneyManager) (symbol : String)
    (inp : TickInput) :
    (¬ ((processSymbol st symbol inp).2.1 = true ∧
        (processSymbol st symbol inp).2.2 = true)) ∧
    ((dictLookup st.positions symbol).isSome →
      (processSymbol st symbol inp).2.2 = false) ∧
    (dictLookup st.positions symbol = none →
      (processSymbol st symbol inp).2.1 = false) ∧
    (∀ p, dictLookup st.positions symbol = some p →
      (st.positions.map Prod.fst).Nodup →
      ((processSymbol st symbol inp).2.1 = true →
        dictLookup (processSymbol st symbol inp).1.positions symbol = none) ∧
      ((processSymbol st symbol inp).2.1 = false →
        ∃ p', dictLookup (processSymbol st symbol inp).1.positions symbol = some p' ∧
          p'.side = p.side ∧ p'.quantity = p.quantity ∧
          p'.entry_price = p.entry_price ∧ p'.stop_loss = p.stop_loss ∧
          p'.take_profit = p.take_profit)) := by
  by_cases hd : inp.hasData
  · cases hl : dictLookup st.positions symbol with
    | some p0 =>
        have hsnd := shouldExit_snd st symbol inp.price p0 hl
        by_cases hx : (shouldExit st symbol inp.price).1.1
        · -- exit tick: close, no open
          simp only [processSymbol, hd, not_true, if_false, hl, hx, if_true]
          refine ⟨by simp, fun _ => trivial, by simp [hl], ?_⟩
          intro p hp hnd
          have hp0 : p0 = p := Option.some.inj hp
          subst hp0
          refine ⟨fun _ => ?_, fun hfalse => by simp at hfalse⟩
          have hlu := updateTrailingStop_lookup st symbol inp.price p0 hl
          have hnd' : ((updateTrailingStop st symbol inp.price).positions.map
              Prod.fst).Nodup := by
            rw [updateTrailingStop_keys]; exact hnd
          rw [hsnd]
          simp only [closePosition, hlu]
          exact dictLookup_erase_self _ _ hnd'
        · -- no exit: state only trail-updated
          simp only [processSymbol, hd, not_true, if_false, hl, hx, if_false]
          refine ⟨by simp, fun _ => by simp, by simp [hl], ?_⟩
          intro p hp hnd
          have hp0 : p0 = p := Option.some.inj hp
          subst hp0
          refine ⟨fun htrue => by simp at htrue, fun _ => ?_⟩
          refine ⟨trailUpdate p0 inp.price, ?_,
            (trailUpdate_fields p0 inp.price).1,
            (trailUpdate_fields p0 inp.price).2.1,
            (trailUpdate_fields p0 inp.price).2.2.1,
            (trailUpdate_fields p0 inp.price).2.2.2.1,
            (trailUpdate_fields p0 inp.price).2.2.2.2⟩
          rw [hsnd]
          exact updateTrailingStop_lookup st symbol inp.price p0 hl
    | none =>
        refine ⟨?_, ?_, fun _ => ?_, ?_⟩
        · simp only [processSymbol, hd, not_true, if_false, hl]
          split_ifs <;> simp
        · intro hs
          simp [hl] at hs
        · simp only [processSymbol, hd, not_true, if_false, hl]
          split_ifs <;> rfl
        · intro p hp
          simp [hl] at hp
  · have hd' : ¬ inp.hasData := hd
    refine ⟨?_, fun _ => ?_, fun _ => ?_, ?_⟩
    · simp [processSymbol, hd']
    · simp [processSymbol, hd']
    · simp [processSymbol, hd']
    · intro p hp hnd
      refine ⟨?_, fun _ => ⟨p, ?_, rfl, rfl, rfl, rfl, rfl⟩⟩
      · intro htrue
        simp [processSymbol, hd'] at htrue
      · simp [processSymbol, hd', hp]

end GrowHFT
